import Mathlib

/-!
# URL shortener service: embedding of `internal/service/url_service.go`

The service talks to three collaborators through interfaces: the repository
(`repository.ShortURLRepository`), the cache (`cache.CacheInterface`) and the
process environment (`crypto/rand`, `time.Now`).  The collaborators are an
explicit record of state-passing operations; every call the service makes is
appended to a call log, so that statements about which calls were issued can
be made.

Instants are integers (nanoseconds on one time line), `time.Duration` is a
signed 64-bit count of nanoseconds.
-/

namespace UrlShortener

/-! ## Errors -/

/-- Go `error` values seen by the service. `recordNotFound` is the sentinel
`gorm.ErrRecordNotFound` (compared with `==`), `other` is any other error
value produced by a collaborator, `errorf` is `fmt.Errorf` without a wrapped
error and `wrap` is `fmt.Errorf("...: %w", err)`. -/
inductive Err where
  | recordNotFound : Err
  | other (msg : String) : Err
  | errorf (msg : String) : Err
  | wrap (pre : String) (inner : Err) : Err
  deriving DecidableEq, Repr

/-- The text of `err.Error()`. -/
def Err.message : Err → String
  | .recordNotFound => "record not found"
  | .other msg => msg
  | .errorf msg => msg
  | .wrap pre inner => pre ++ inner.message

/-! ## Data model (`internal/model/short_url.go`, `internal/config/config.go`) -/

/-- Row of the store, `model.ShortURL`. -/
structure ShortURL where
  ID : Nat := 0
  ShortCode : String
  OriginalURL : String
  CreatedAt : Int := 0
  UpdatedAt : Int := 0
  DeletedAt : Option Int := none
  ExpiresAt : Option Int := none
  deriving DecidableEq, Repr

/-- Body of a create request, `model.CreateShortURLRequest`. -/
structure CreateShortURLRequest where
  URL : String
  ExpiresAt : Option Int := none
  deriving DecidableEq, Repr

/-- Answer to a create request, `model.CreateShortURLResponse`. -/
structure CreateShortURLResponse where
  ShortCode : String
  ShortURL : String
  OriginalURL : String
  ExpiresAt : Option Int
  deriving DecidableEq, Repr

/-- Answer to a stats request, `model.URLStatsResponse`. -/
structure URLStatsResponse where
  ShortCode : String
  OriginalURL : String
  CreatedAt : Int
  ExpiresAt : Option Int
  deriving DecidableEq, Repr

/-- The `App` section of the configuration, `config.AppConfig`. The code
length sizes a byte slice (`make([]byte, n)` does not return for a negative
`n`), so it is a natural number here. -/
structure AppConfig where
  BaseURL : String
  CacheTTL : Int
  ShortCodeLength : Nat
  deriving DecidableEq, Repr

/-! ## Durations and instants (`time`) -/

/-- Smallest `time.Duration`. -/
def minDuration : Int := -9223372036854775808

/-- Largest `time.Duration`. -/
def maxDuration : Int := 9223372036854775807

/-- Two's complement wrap-around of a signed 64-bit product. -/
def wrapInt64 (x : Int) : Int := (x + 9223372036854775808) % 18446744073709551616 - 9223372036854775808

/-- The constant `time.Second` in nanoseconds. -/
def second : Int := 1000000000

/-- The expression `time.Duration(s.config.App.CacheTTL) * time.Second`. -/
def cacheTTLDuration (cfg : AppConfig) : Int := wrapInt64 (cfg.CacheTTL * second)

/-- The method `t.Sub(u)`: the difference, saturated to the `Duration` range. -/
def timeSub (t u : Int) : Int :=
  if t - u < minDuration then minDuration
  else if maxDuration < t - u then maxDuration
  else t - u

/-- The method `t.After(u)`. -/
def timeAfter (t u : Int) : Bool := decide (u < t)

/-! ## Code alphabet (`encoding/base64`, `strings`) -/

/-- The alphabet of `base64.URLEncoding`. -/
def urlAlphabet : List Char :=
  "ABCDEFGHIJKLMNOPQRSTUVWXYZabcdefghijklmnopqrstuvwxyz0123456789-_".toList

/-- Character of a 6-bit group. -/
def encChar (i : Nat) : Char := urlAlphabet.getD i 'A'

/-- The function `base64.URLEncoding.EncodeToString`: three bytes give four
characters, a last group of one or two bytes is padded with `=`. -/
def encodeToString : List Nat → List Char
  | [] => []
  | [a] => [encChar (a / 4), encChar (a % 4 * 16), '=', '=']
  | [a, b] => [encChar (a / 4), encChar (a % 4 * 16 + b / 16), encChar (b % 16 * 4), '=']
  | a :: b :: c :: rest =>
    encChar (a / 4) :: encChar (a % 4 * 16 + b / 16) :: encChar (b % 16 * 4 + c / 64)
      :: encChar (c % 64) :: encodeToString rest

/-- The call `strings.ReplaceAll(s, string(c), "")` for a single character. -/
def removeAll (c : Char) (s : List Char) : List Char := s.filter (fun x => x != c)

/-- The buffer `make([]byte, n)` after a read wrote `bytes` into it: `n` bytes,
zero where nothing was written. -/
def fillBuf (n : Nat) (bytes : List Nat) : List Nat :=
  (List.range n).map (fun i => bytes.getD i 0 % 256)

/-- Lines 139-146 of `generateShortCode`: encode, strip `-` and `_`, cut to
the configured length when longer. -/
def codeOfBytes (len : Nat) (randomBytes : List Nat) : String :=
  let encoded := encodeToString randomBytes
  let shortCode := removeAll '_' (removeAll '-' encoded)
  String.mk (if len < shortCode.length then shortCode.take len else shortCode)

/-! ## Collaborators -/

/-- One call issued by the service to a collaborator; a clock reading is
recorded with the instant it returned. -/
inductive Call where
  | randRead (n : Nat) : Call
  | now (t : Int) : Call
  | findByCode (code : String) : Call
  | create (row : ShortURL) : Call
  | cacheGet (key : String) : Call
  | cacheSet (key value : String) (ttl : Int) : Call
  deriving DecidableEq, Repr

/-- The collaborators over a state `σ`: `crypto/rand.Read` on a buffer of `n`
bytes, `time.Now`, the two repository methods and the two cache methods the
service uses. -/
structure Env (σ : Type) where
  randRead : Nat → σ → Except Err (List Nat) × σ
  now : σ → Int × σ
  findByCode : String → σ → Except Err ShortURL × σ
  create : ShortURL → σ → Option Err × σ
  cacheGet : String → σ → Except Err String × σ
  cacheSet : String → String → Int → σ → Option Err × σ

/-- State of a run: the collaborators' state and the calls issued so far,
oldest first. -/
structure Run (σ : Type) where
  world : σ
  log : List Call

/-- A run that has issued no call yet. -/
def Run.start {σ : Type} (w : σ) : Run σ := { world := w, log := [] }

/-- Issue a call: record it and move the collaborators' state. -/
def Run.step {σ α : Type} (r : Run σ) (c : Call) (out : α × σ) : α × Run σ :=
  (out.1, { world := out.2, log := r.log ++ [c] })

/-! ## The service (`internal/service/url_service.go`) -/

/-- The constant `maxRetries` of `generateShortCode`. -/
def maxRetries : Nat := 5

/-- The loop of `generateShortCode` with `fuel` iterations left. -/
def generateLoop {σ : Type} (env : Env σ) (cfg : AppConfig) :
    Nat → Run σ → (String × Option Err) × Run σ
  | 0, r =>
    (("", some (.errorf "failed to generate unique short code after 5 retries")), r)
  | fuel + 1, r =>
    let n := cfg.ShortCodeLength
    let (rd, r1) := r.step (.randRead n) (env.randRead n r.world)
    match rd with
    | .error e => (("", some e), r1)
    | .ok bytes =>
      let shortCode := codeOfBytes n (fillBuf n bytes)
      let (found, r2) := r1.step (.findByCode shortCode) (env.findByCode shortCode r1.world)
      match found with
      | .error .recordNotFound => ((shortCode, none), r2)
      | .error e => (("", some e), r2)
      | .ok _ => generateLoop env cfg fuel r2

/-- The method `generateShortCode`. -/
def generateShortCode {σ : Type} (env : Env σ) (cfg : AppConfig) (r : Run σ) :
    (String × Option Err) × Run σ :=
  generateLoop env cfg maxRetries r

/-- The cache key `fmt.Sprintf("short_url:%s", shortCode)`. -/
def cacheKey (shortCode : String) : String := "short_url:" ++ shortCode

/-- Lines 55-62 and 98-104: the cache lifetime of an entry, reading the clock
only when an expiry is set. -/
def computeExpiration {σ : Type} (env : Env σ) (cfg : AppConfig) (expiresAt : Option Int)
    (r : Run σ) : Int × Run σ :=
  let expiration := cacheTTLDuration cfg
  match expiresAt with
  | none => (expiration, r)
  | some e =>
    let t := (env.now r.world).1
    let (_, r1) := r.step (.now t) (env.now r.world)
    let timeUntilExpiry := timeSub e t
    if timeUntilExpiry < expiration then (timeUntilExpiry, r1) else (expiration, r1)

/-- The method `CreateShortURL`. -/
def CreateShortURL {σ : Type} (env : Env σ) (cfg : AppConfig) (req : CreateShortURLRequest)
    (r : Run σ) : (Option CreateShortURLResponse × Option Err) × Run σ :=
  let (gen, r1) := generateShortCode env cfg r
  match gen with
  | (_, some err) => ((none, some (.wrap "failed to generate short code: " err)), r1)
  | (shortCode, none) =>
    let shortURL : ShortURL :=
      { ShortCode := shortCode, OriginalURL := req.URL, ExpiresAt := req.ExpiresAt }
    let (cerr, r2) := r1.step (.create shortURL) (env.create shortURL r1.world)
    match cerr with
    | some err => ((none, some (.wrap "failed to create short URL: " err)), r2)
    | none =>
      let (expiration, r3) := computeExpiration env cfg req.ExpiresAt r2
      let (_, r4) := r3.step (.cacheSet (cacheKey shortCode) req.URL expiration)
        (env.cacheSet (cacheKey shortCode) req.URL expiration r3.world)
      ((some { ShortCode := shortCode,
               ShortURL := cfg.BaseURL ++ "/" ++ shortCode,
               OriginalURL := req.URL,
               ExpiresAt := req.ExpiresAt }, none), r4)

/-- The expiry test of line 93: the clock is read only when an expiry is set. -/
def checkExpired {σ : Type} (env : Env σ) (expiresAt : Option Int) (r : Run σ) : Bool × Run σ :=
  match expiresAt with
  | none => (false, r)
  | some e =>
    let t := (env.now r.world).1
    let (_, r1) := r.step (.now t) (env.now r.world)
    (timeAfter t e, r1)

/-- The method `GetOriginalURL`. -/
def GetOriginalURL {σ : Type} (env : Env σ) (cfg : AppConfig) (shortCode : String)
    (r : Run σ) : (String × Option Err) × Run σ :=
  let (cached, r1) := r.step (.cacheGet (cacheKey shortCode)) (env.cacheGet (cacheKey shortCode) r.world)
  match cached with
  | .ok cachedURL => ((cachedURL, none), r1)
  | .error _ =>
    let (found, r2) := r1.step (.findByCode shortCode) (env.findByCode shortCode r1.world)
    match found with
    | .error .recordNotFound => (("", some (.errorf "short URL not found")), r2)
    | .error err => (("", some (.wrap "failed to find short URL: " err)), r2)
    | .ok shortURL =>
      let (expired, r3) := checkExpired env shortURL.ExpiresAt r2
      if expired then (("", some (.errorf "short URL has expired")), r3)
      else
        let (expiration, r4) := computeExpiration env cfg shortURL.ExpiresAt r3
        let (_, r5) := r4.step (.cacheSet (cacheKey shortCode) shortURL.OriginalURL expiration)
          (env.cacheSet (cacheKey shortCode) shortURL.OriginalURL expiration r4.world)
        ((shortURL.OriginalURL, none), r5)

/-- The method `GetURLStats`. -/
def GetURLStats {σ : Type} (env : Env σ) (shortCode : String) (r : Run σ) :
    (Option URLStatsResponse × Option Err) × Run σ :=
  let (found, r1) := r.step (.findByCode shortCode) (env.findByCode shortCode r.world)
  match found with
  | .error .recordNotFound => ((none, some (.errorf "short URL not found")), r1)
  | .error err => ((none, some (.wrap "failed to find short URL: " err)), r1)
  | .ok shortURL =>
    ((some { ShortCode := shortURL.ShortCode,
             OriginalURL := shortURL.OriginalURL,
             CreatedAt := shortURL.CreatedAt,
             ExpiresAt := shortURL.ExpiresAt }, none), r1)

/-! ## An in-memory store and cache -/

/-- Mode of the in-memory cache: `faithful` keeps every entry and answers a
`Get` with the value last `Set` under the key (whatever lifetime it was set
with), `failing` fails every call. -/
inductive CacheMode where
  | faithful : CacheMode
  | failing : CacheMode
  deriving DecidableEq, Repr

/-- In-memory collaborators: the rows accepted by `Create` so far (oldest
first), the error with which the store refuses the `k`-th `Create` (if it
does), the cache entries (newest first), the random source (outcome of the
`k`-th read) and the clock (the `k`-th reading). -/
structure Mem where
  rows : List ShortURL
  refuses : Nat → Option Err
  creates : Nat
  entries : List (String × String × Int)
  rand : Nat → Except Err (List Nat)
  reads : Nat
  clock : Nat → Int
  ticks : Nat

/-- The reading the next `time.Now()` returns. -/
def Mem.peek (m : Mem) : Int := m.clock m.ticks

/-- Codes of the stored rows. -/
def Mem.codes (m : Mem) : List String := m.rows.map (fun row => row.ShortCode)

/-- Lookup of a row by code, expired or not. -/
def Mem.find (m : Mem) (code : String) : Option ShortURL :=
  m.rows.find? (fun row => row.ShortCode == code)

/-- Lookup of the newest cache entry under a key. -/
def Mem.lookup (m : Mem) (key : String) : Option String :=
  (m.entries.find? (fun e => e.1 == key)).map (fun e => e.2.1)

/-- The in-memory collaborators as an `Env`, for a mode of the cache. -/
def memEnv (mode : CacheMode) : Env Mem where
  randRead := fun _ m => (m.rand m.reads, { m with reads := m.reads + 1 })
  now := fun m => (m.clock m.ticks, { m with ticks := m.ticks + 1 })
  findByCode := fun code m =>
    match m.find code with
    | some row => (.ok row, m)
    | none => (.error .recordNotFound, m)
  create := fun row m =>
    match m.refuses m.creates with
    | some err => (some err, { m with creates := m.creates + 1 })
    | none => (none, { m with rows := m.rows ++ [row], creates := m.creates + 1 })
  cacheGet := fun key m =>
    match mode with
    | .failing => (.error (.other "cache unavailable"), m)
    | .faithful =>
      match m.lookup key with
      | some v => (.ok v, m)
      | none => (.error (.other "key does not exist"), m)
  cacheSet := fun key value ttl m =>
    match mode with
    | .failing => (some (.other "cache unavailable"), m)
    | .faithful => (none, { m with entries := (key, value, ttl) :: m.entries })

/-- Sequential creations: the codes of the successful ones, in order. -/
def createMany {σ : Type} (env : Env σ) (cfg : AppConfig) :
    List CreateShortURLRequest → Run σ → List String × Run σ
  | [], r => ([], r)
  | req :: rest, r =>
    let (out, r1) := CreateShortURL env cfg req r
    let (codes, r2) := createMany env cfg rest r1
    match out with
    | (some resp, none) => (resp.ShortCode :: codes, r2)
    | _ => (codes, r2)

/-! ## Kinds of calls -/

/-- An existence query on the store. -/
def Call.isFind : Call → Bool
  | .findByCode _ => true
  | _ => false

/-- A read of the random source. -/
def Call.isRand : Call → Bool
  | .randRead _ => true
  | _ => false

/-- An insertion into the store. -/
def Call.isCreate : Call → Bool
  | .create _ => true
  | _ => false

/-- A read of the cache. -/
def Call.isCacheGet : Call → Bool
  | .cacheGet _ => true
  | _ => false

/-- A write to the cache. -/
def Call.isCacheSet : Call → Bool
  | .cacheSet _ _ _ => true
  | _ => false

/-- A reading of the clock. -/
def Call.isNow : Call → Bool
  | .now _ => true
  | _ => false

/-! ## Sample inputs -/

/-- The configuration used by the tests of the service. -/
def testConfig : AppConfig :=
  { BaseURL := "http://localhost:8080", CacheTTL := 3600, ShortCodeLength := 6 }

/-- A random source whose `k`-th read gives six bytes `k`. -/
def counting : Nat → List Nat := fun k => [k, k, k, k, k, k]

/-- An empty store and an empty cache; the `k`-th read of the random source
gives `draw k`, the clock stands at `t`. -/
def emptyMem (draw : Nat → List Nat) (t : Int) : Mem :=
  { rows := [], refuses := fun _ => none, creates := 0, entries := [],
    rand := fun k => .ok (draw k), reads := 0, clock := fun _ => t, ticks := 0 }

/-- A store holding one row and a cache holding the given entries, the clock
standing at `t`. -/
def storedMem (row : ShortURL) (entries : List (String × String × Int)) (t : Int) : Mem :=
  { rows := [row], refuses := fun _ => none, creates := 1, entries := entries,
    rand := fun k => .ok (counting k), reads := 0, clock := fun _ => t, ticks := 0 }

/-- A random source whose every byte is `0xFF`. -/
def allOnes : Nat → List Nat := fun _ => [255, 255, 255, 255, 255, 255]

/-- One hour in nanoseconds. -/
def hour : Int := 3600 * second

/-- A store stub that reports every code as existing; the random source gives
zero bytes, the cache misses. -/
def stubEnv : Env Unit where
  randRead := fun n s => (.ok (List.replicate n 0), s)
  now := fun s => (0, s)
  findByCode := fun code s => (.ok { ShortCode := code, OriginalURL := "https://example.com" }, s)
  create := fun _ s => (none, s)
  cacheGet := fun _ s => (.error (.other "key does not exist"), s)
  cacheSet := fun _ _ _ s => (none, s)

/-- An empty store that refuses the first `Create` and accepts the later ones,
with an empty cache. -/
def refusingMem : Mem :=
  { rows := [], entries := [], creates := 0, reads := 0, ticks := 0,
    refuses := fun k => if k = 0 then some (.other "duplicate key value") else none,
    rand := fun k => .ok (counting k), clock := fun _ => 0 }

/-- A store holding one row and an empty cache, the `k`-th clock reading being
`t + k`. -/
def tickingMem (row : ShortURL) (t : Int) : Mem :=
  { rows := [row], entries := [], creates := 1, reads := 0, ticks := 0,
    refuses := fun _ => none, rand := fun k => .ok (counting k), clock := fun k => t + k }

/-- The configuration of the tests with the code length set to 4. -/
def lengthFourConfig : AppConfig :=
  { BaseURL := "http://localhost:8080", CacheTTL := 3600, ShortCodeLength := 4 }

/-- A random source whose reads give the bytes `0xFB 0xEF 0xBE 0x00`. -/
def dashes : Nat → List Nat := fun _ => [251, 239, 190, 0]

/-- A store whose every lookup fails with an error other than
record-not-found; the cache misses. -/
def brokenStoreEnv : Env Unit where
  randRead := fun n s => (.ok (List.replicate n 0), s)
  now := fun s => (0, s)
  findByCode := fun _ s => (.error (.other "connection refused"), s)
  create := fun _ s => (some (.other "connection refused"), s)
  cacheGet := fun _ s => (.error (.other "key does not exist"), s)
  cacheSet := fun _ _ _ s => (none, s)

/-! ## The redirect handler (`internal/handler/url_handler.go`) -/

/-- The handler `RedirectToOriginalURL`, reduced to the HTTP status it answers
with: 400 for an empty code, 404 and 410 for the two error texts it
recognises, 500 for any other error and 302 for a redirect. -/
def RedirectToOriginalURL {σ : Type} (env : Env σ) (cfg : AppConfig) (shortCode : String)
    (r : Run σ) : Nat × Run σ :=
  if shortCode = "" then (400, r)
  else
    let (res, r1) := GetOriginalURL env cfg shortCode r
    match res with
    | (_, some err) =>
      if err.message = "short URL not found" then (404, r1)
      else if err.message = "short URL has expired" then (410, r1)
      else (500, r1)
    | (_, none) => (302, r1)

/-! ## Sequences of operations -/

/-- One call of a public operation that touches the cache. -/
inductive Op where
  | create (req : CreateShortURLRequest) : Op
  | resolve (code : String) : Op
  deriving DecidableEq, Repr

/-- Sequential calls of `CreateShortURL` and `GetOriginalURL`. -/
def runOps {σ : Type} (env : Env σ) (cfg : AppConfig) : List Op → Run σ → Run σ
  | [], r => r
  | .create req :: rest, r => runOps env cfg rest (CreateShortURL env cfg req r).2
  | .resolve code :: rest, r => runOps env cfg rest (GetOriginalURL env cfg code r).2

/-- A store row with the code of the cache key `key` and the target `value`. -/
def Mem.backs (m : Mem) (key value : String) : Prop :=
  ∃ row ∈ m.rows, key = cacheKey row.ShortCode ∧ value = row.OriginalURL

/-- Every cache write issued so far and every entry the cache holds has a
store row with that code and target. -/
def sound (r : Run Mem) : Prop :=
  (∀ k v t, Call.cacheSet k v t ∈ r.log → r.world.backs k v) ∧
    (∀ en ∈ r.world.entries, r.world.backs en.1 en.2.1)

/-- From `r` to `out` the store keeps its rows, and every cache write and
cache entry that is new has a store row with that code and target. -/
def grows (r out : Run Mem) : Prop :=
  (∀ row ∈ r.world.rows, row ∈ out.world.rows) ∧
    (∀ k v t, Call.cacheSet k v t ∈ out.log → Call.cacheSet k v t ∈ r.log ∨ out.world.backs k v) ∧
    (∀ en ∈ out.world.entries, en ∈ r.world.entries ∨ out.world.backs en.1 en.2.1)

/-! ## The generator only reads randomness and queries the store -/

theorem generateLoop_log {σ : Type} (env : Env σ) (cfg : AppConfig) (fuel : Nat) (r : Run σ) :
    ∃ l, (generateLoop env cfg fuel r).2.log = r.log ++ l ∧
      ∀ c ∈ l, c.isRand = true ∨ c.isFind = true := by
  induction fuel generalizing r with
  | zero => exact ⟨[], by simp [generateLoop]⟩
  | succ k ih =>
    unfold generateLoop
    simp only [Run.step]
    cases h1 : (env.randRead cfg.ShortCodeLength r.world).1 with
    | error e => exact ⟨[.randRead cfg.ShortCodeLength], by simp [Call.isRand]⟩
    | ok bytes =>
      simp only []
      cases h2 : (env.findByCode (codeOfBytes cfg.ShortCodeLength (fillBuf cfg.ShortCodeLength bytes))
          (env.randRead cfg.ShortCodeLength r.world).2).1 with
      | error e =>
        cases e <;>
          exact ⟨[.randRead cfg.ShortCodeLength, .findByCode
            (codeOfBytes cfg.ShortCodeLength (fillBuf cfg.ShortCodeLength bytes))],
            by simp [Call.isRand, Call.isFind]⟩
      | ok row =>
        simp only []
        obtain ⟨l, hl, hall⟩ := ih
          { world := (env.findByCode (codeOfBytes cfg.ShortCodeLength
              (fillBuf cfg.ShortCodeLength bytes)) (env.randRead cfg.ShortCodeLength r.world).2).2,
            log := (r.log ++ [.randRead cfg.ShortCodeLength]) ++ [.findByCode
              (codeOfBytes cfg.ShortCodeLength (fillBuf cfg.ShortCodeLength bytes))] }
        refine ⟨[.randRead cfg.ShortCodeLength, .findByCode
            (codeOfBytes cfg.ShortCodeLength (fillBuf cfg.ShortCodeLength bytes))] ++ l, ?_, ?_⟩
        · rw [hl]; simp
        · intro c hc
          simp only [List.mem_append, List.mem_cons, List.mem_singleton, List.not_mem_nil,
            or_false] at hc
          rcases hc with (rfl | rfl) | hc
          · simp [Call.isRand]
          · simp [Call.isFind]
          · exact hall c hc

theorem generateLoop_exhausted {σ : Type} (env : Env σ) (cfg : AppConfig)
    (hexists : ∀ code s, ∃ row, (env.findByCode code s).1 = .ok row)
    (hdraw : ∀ n s, ∃ bytes, (env.randRead n s).1 = .ok bytes) (fuel : Nat) (r : Run σ) :
    (generateLoop env cfg fuel r).1 =
        ("", some (.errorf "failed to generate unique short code after 5 retries")) ∧
      (generateLoop env cfg fuel r).2.log.countP Call.isFind =
        r.log.countP Call.isFind + fuel := by
  induction fuel generalizing r with
  | zero => simp [generateLoop]
  | succ k ih =>
    unfold generateLoop
    simp only [Run.step]
    obtain ⟨bytes, hb⟩ := hdraw cfg.ShortCodeLength r.world
    simp only [hb]
    obtain ⟨row, hrow⟩ := hexists (codeOfBytes cfg.ShortCodeLength
      (fillBuf cfg.ShortCodeLength bytes)) (env.randRead cfg.ShortCodeLength r.world).2
    simp only [hrow]
    refine ⟨(ih _).1, ?_⟩
    rw [(ih _).2]
    simp [List.countP_append, Call.isFind]
    omega

/-! ## The cache lifetime computation -/

theorem computeExpiration_world {σ : Type} (env : Env σ) (cfg : AppConfig)
    (expiresAt : Option Int) (r : Run σ) :
    (computeExpiration env cfg expiresAt r).2.world =
      (match expiresAt with
       | none => r.world
       | some _ => (env.now r.world).2) := by
  unfold computeExpiration
  cases expiresAt with
  | none => rfl
  | some e => simp only [Run.step]; split <;> rfl

theorem computeExpiration_log {σ : Type} (env : Env σ) (cfg : AppConfig)
    (expiresAt : Option Int) (r : Run σ) :
    (computeExpiration env cfg expiresAt r).2.log =
      (match expiresAt with
       | none => r.log
       | some _ => r.log ++ [.now (env.now r.world).1]) := by
  unfold computeExpiration
  cases expiresAt with
  | none => rfl
  | some e => simp only [Run.step]; split <;> rfl

theorem computeExpiration_fst {σ : Type} (env : Env σ) (cfg : AppConfig)
    (expiresAt : Option Int) (r : Run σ) :
    (computeExpiration env cfg expiresAt r).1 =
      (match expiresAt with
       | none => cacheTTLDuration cfg
       | some e => min (cacheTTLDuration cfg) (timeSub e (env.now r.world).1)) := by
  unfold computeExpiration
  cases expiresAt with
  | none => rfl
  | some e =>
    simp only [Run.step]
    split
    · rename_i h; simp only []; rw [min_eq_right (le_of_lt h)]
    · rename_i h; simp only []; rw [min_eq_left (not_lt.mp h)]

theorem cacheTTLDuration_eq (cfg : AppConfig) (hlo : minDuration ≤ cfg.CacheTTL * second)
    (hhi : cfg.CacheTTL * second ≤ maxDuration) :
    cacheTTLDuration cfg = cfg.CacheTTL * second := by
  unfold cacheTTLDuration wrapInt64
  unfold minDuration at hlo
  unfold maxDuration at hhi
  generalize cfg.CacheTTL * second = x at hlo hhi
  omega

theorem timeSub_eq (t u : Int) (hlo : minDuration ≤ t - u) (hhi : t - u ≤ maxDuration) :
    timeSub t u = t - u := by
  unfold timeSub
  rw [if_neg (not_lt.mpr hlo), if_neg (not_lt.mpr hhi)]

theorem timeSub_le (t u : Int) (hlo : minDuration ≤ t - u) : timeSub t u ≤ t - u := by
  unfold timeSub
  split
  · exact hlo
  · split
    · rename_i h; exact le_of_lt h
    · exact le_refl _

/-! ## The service over the in-memory collaborators -/

theorem memEnv_randRead (mode : CacheMode) (n : Nat) (m : Mem) :
    (memEnv mode).randRead n m = (m.rand m.reads, { m with reads := m.reads + 1 }) := rfl

theorem memEnv_now (mode : CacheMode) (m : Mem) :
    (memEnv mode).now m = (m.clock m.ticks, { m with ticks := m.ticks + 1 }) := rfl

theorem memEnv_findByCode (mode : CacheMode) (code : String) (m : Mem) :
    (memEnv mode).findByCode code m =
      (match m.find code with
       | some row => (.ok row, m)
       | none => (.error .recordNotFound, m)) := rfl

theorem memEnv_create (mode : CacheMode) (row : ShortURL) (m : Mem) :
    (memEnv mode).create row m =
      (match m.refuses m.creates with
       | some err => (some err, { m with creates := m.creates + 1 })
       | none => (none, { m with rows := m.rows ++ [row], creates := m.creates + 1 })) := rfl

theorem memEnv_cacheGet (mode : CacheMode) (key : String) (m : Mem) :
    (memEnv mode).cacheGet key m =
      (match mode with
       | .failing => (.error (.other "cache unavailable"), m)
       | .faithful =>
         match m.lookup key with
         | some v => (.ok v, m)
         | none => (.error (.other "key does not exist"), m)) := rfl

theorem memEnv_cacheSet (mode : CacheMode) (key value : String) (ttl : Int) (m : Mem) :
    (memEnv mode).cacheSet key value ttl m =
      (match mode with
       | .failing => (some (.other "cache unavailable"), m)
       | .faithful => (none, { m with entries := (key, value, ttl) :: m.entries })) := rfl

theorem mem_generateLoop (mode : CacheMode) (cfg : AppConfig) (fuel : Nat) (r : Run Mem) :
    (∃ k, (generateLoop (memEnv mode) cfg fuel r).2.world = { r.world with reads := k }) ∧
      ((generateLoop (memEnv mode) cfg fuel r).1.2 = none →
        r.world.find (generateLoop (memEnv mode) cfg fuel r).1.1 = none) := by
  induction fuel generalizing r with
  | zero => exact ⟨⟨r.world.reads, by simp [generateLoop]⟩, by simp [generateLoop]⟩
  | succ k ih =>
    unfold generateLoop
    simp only [Run.step, memEnv_randRead, memEnv_findByCode]
    cases h1 : r.world.rand r.world.reads with
    | error e => exact ⟨⟨_, rfl⟩, by simp⟩
    | ok bytes =>
      simp only [Mem.find]
      cases h2 : List.find? (fun row => row.ShortCode ==
          codeOfBytes cfg.ShortCodeLength (fillBuf cfg.ShortCodeLength bytes)) r.world.rows with
      | none => exact ⟨⟨_, rfl⟩, fun _ => h2⟩
      | some row =>
        simp only []
        have h := ih { world := { r.world with reads := r.world.reads + 1 },
                       log := (r.log ++ [.randRead cfg.ShortCodeLength]) ++ [.findByCode
                         (codeOfBytes cfg.ShortCodeLength (fillBuf cfg.ShortCodeLength bytes))] }
        obtain ⟨⟨j, hj⟩, hfind⟩ := h
        exact ⟨⟨j, hj⟩, hfind⟩

theorem mem_create (mode : CacheMode) (cfg : AppConfig) (req : CreateShortURLRequest)
    (r : Run Mem) :
    ((CreateShortURL (memEnv mode) cfg req r).1.1 = none ∧
        (CreateShortURL (memEnv mode) cfg req r).2.world.rows = r.world.rows) ∨
      ∃ code,
        (CreateShortURL (memEnv mode) cfg req r).1 =
          (some { ShortCode := code, ShortURL := cfg.BaseURL ++ "/" ++ code,
                  OriginalURL := req.URL, ExpiresAt := req.ExpiresAt }, none) ∧
        r.world.find code = none ∧
        (CreateShortURL (memEnv mode) cfg req r).2.world.rows = r.world.rows ++
          [{ ShortCode := code, OriginalURL := req.URL, ExpiresAt := req.ExpiresAt }] ∧
        (mode = .faithful →
          (CreateShortURL (memEnv mode) cfg req r).2.world.lookup (cacheKey code)
            = some req.URL) := by
  unfold CreateShortURL generateShortCode
  have hg := mem_generateLoop mode cfg maxRetries r
  generalize generateLoop (memEnv mode) cfg maxRetries r = g at hg
  obtain ⟨⟨code, err⟩, r1⟩ := g
  obtain ⟨⟨k, hk⟩, hfind⟩ := hg
  simp only at hk hfind
  cases err with
  | some e => left; simp [hk]
  | none =>
    simp only [Run.step, memEnv_create]
    cases hr : r1.world.refuses r1.world.creates with
    | some e => left; simp [hk]
    | none =>
      right
      refine ⟨code, ?_⟩
      simp only [computeExpiration_world, memEnv_cacheSet, memEnv_now]
      cases mode <;> cases hE : req.ExpiresAt <;>
        simp [hk, hfind, Mem.lookup]

theorem mem_find_eq_none (m : Mem) (code : String) :
    m.find code = none ↔ code ∉ m.codes := by
  simp only [Mem.find, Mem.codes, List.find?_eq_none, List.mem_map, not_exists, not_and,
    beq_iff_eq]

theorem createMany_codes (mode : CacheMode) (cfg : AppConfig)
    (reqs : List CreateShortURLRequest) (r : Run Mem) :
    (createMany (memEnv mode) cfg reqs r).2.world.codes =
        r.world.codes ++ (createMany (memEnv mode) cfg reqs r).1 ∧
      (r.world.codes.Nodup → (createMany (memEnv mode) cfg reqs r).2.world.codes.Nodup) := by
  induction reqs generalizing r with
  | nil => simp [createMany]
  | cons req rest ih =>
    unfold createMany
    rcases mem_create mode cfg req r with ⟨hnone, hrows⟩ | ⟨code, hout, hfind, hrows, _⟩
    · generalize CreateShortURL (memEnv mode) cfg req r = out at hnone hrows
      obtain ⟨⟨o, e⟩, r1⟩ := out
      simp only at hnone hrows
      subst hnone
      have h := ih r1
      simp only [Mem.codes, hrows] at h
      simpa [Mem.codes] using h
    · generalize CreateShortURL (memEnv mode) cfg req r = out at hout hrows
      obtain ⟨⟨o, e⟩, r1⟩ := out
      simp only [Prod.mk.injEq] at hout
      obtain ⟨rfl, rfl⟩ := hout
      simp only at hrows
      have hc : r1.world.codes = r.world.codes ++ [code] := by simp [Mem.codes, hrows]
      have h := ih r1
      rw [hc] at h
      simp only []
      refine ⟨by rw [h.1]; simp, fun hnd => h.2 ?_⟩
      rw [List.nodup_append]
      refine ⟨hnd, List.nodup_singleton _, ?_⟩
      intro a ha hb
      simp only [List.mem_singleton] at hb
      subst hb
      exact (mem_find_eq_none _ _).1 hfind ha

/-! ## Shape of a successful creation -/

theorem create_ok_log {σ : Type} (env : Env σ) (cfg : AppConfig) (req : CreateShortURLRequest)
    (w : σ) (resp : CreateShortURLResponse) (r' : Run σ)
    (hcreate : CreateShortURL env cfg req (Run.start w) = ((some resp, none), r')) :
    ∃ pre w2, (∀ c ∈ pre, c.isCacheSet = false) ∧
      r'.log = pre ++
        (match req.ExpiresAt with
         | none => []
         | some _ => [.now (env.now w2).1]) ++
        [.cacheSet (cacheKey resp.ShortCode) req.URL
          (match req.ExpiresAt with
           | none => cacheTTLDuration cfg
           | some e => min (cacheTTLDuration cfg) (timeSub e (env.now w2).1))] := by
  obtain ⟨l, hl, hall⟩ := generateLoop_log env cfg maxRetries (Run.start w)
  unfold CreateShortURL generateShortCode at hcreate
  generalize generateLoop env cfg maxRetries (Run.start w) = g at hcreate hl
  obtain ⟨⟨code, err⟩, r1⟩ := g
  simp only [Run.start, List.nil_append] at hl
  have hpre : ∀ row, ∀ c ∈ r1.log ++ [Call.create row], c.isCacheSet = false := by
    intro row c hc
    rw [hl] at hc
    simp only [List.mem_append, List.mem_singleton] at hc
    rcases hc with hc | rfl
    · rcases hall c hc with h | h <;> cases c <;> simp_all [Call.isRand, Call.isFind,
        Call.isCacheSet]
    · rfl
  cases err with
  | some e0 => simp at hcreate
  | none =>
    simp only [Run.step] at hcreate
    split at hcreate
    · simp at hcreate
    · simp only [Prod.mk.injEq, Option.some.injEq, and_true] at hcreate
      obtain ⟨rfl, rfl⟩ := hcreate
      simp only [computeExpiration_log, computeExpiration_fst]
      refine ⟨r1.log ++ [Call.create ⟨0, code, req.URL, 0, 0, none, req.ExpiresAt⟩],
        (env.create ⟨0, code, req.URL, 0, 0, none, req.ExpiresAt⟩ r1.world).2, hpre _, ?_⟩
      cases req.ExpiresAt <;> simp

/-! ## Claims -/

/-- Claim C1, evaluated on the code: with the configured length 6 and a draw of
six bytes `0xFF` the encoding is eight `_` characters, all of which are
stripped, so `generateShortCode` returns the empty code without an error and
`CreateShortURL` succeeds with a `ShortCode` of length 0 instead of 6. -/
theorem generateShortCode_under_length :
    testConfig.ShortCodeLength = 6 ∧
      (generateShortCode (memEnv .faithful) testConfig (Run.start (emptyMem allOnes 0))).1
        = ("", none) ∧
      (CreateShortURL (memEnv .faithful) testConfig { URL := "https://example.com" }
          (Run.start (emptyMem allOnes 0))).1
        = (some { ShortCode := "", ShortURL := "http://localhost:8080/",
                  OriginalURL := "https://example.com", ExpiresAt := none }, none) := by
  decide

/-- Claim C2: over the in-memory store, with the cache faithful or failing
on every call, when `CreateShortURL` succeeds and the expiry of the request is
absent or strictly after the clock reading at resolution, the following
`GetOriginalURL` of the returned code gives the request URL and no error. -/
theorem create_then_resolve (mode : CacheMode) (cfg : AppConfig) (m : Mem)
    (req : CreateShortURLRequest) (resp : CreateShortURLResponse) (r' : Run Mem)
    (hcreate : CreateShortURL (memEnv mode) cfg req (Run.start m) = ((some resp, none), r'))
    (hfuture : ∀ e, req.ExpiresAt = some e → r'.world.peek < e) :
    (GetOriginalURL (memEnv mode) cfg resp.ShortCode r').1 = (req.URL, none) := by
  rcases mem_create mode cfg req (Run.start m) with
    ⟨hnone, _⟩ | ⟨code, hout, hfind, hrows, hlook⟩
  · rw [hcreate] at hnone; simp at hnone
  · rw [hcreate] at hout hrows hlook
    simp only [Prod.mk.injEq, Option.some.injEq, and_true] at hout
    subst hout
    simp only at hrows hlook hfind ⊢
    unfold GetOriginalURL
    simp only [Run.step, memEnv_cacheGet, memEnv_findByCode]
    cases mode with
    | faithful => simp [hlook rfl]
    | failing =>
      have hf : r'.world.find code = some
          { ShortCode := code, OriginalURL := req.URL, ExpiresAt := req.ExpiresAt } := by
        have hf0 : List.find? (fun row => row.ShortCode == code) (Run.start m).world.rows = none :=
          hfind
        simp [Mem.find, hrows, List.find?_append, hf0]
      simp only [hf]
      cases hE : req.ExpiresAt with
      | none => simp [checkExpired]
      | some e =>
        have hlt := hfuture e hE
        have hna : timeAfter (r'.world.clock r'.world.ticks) e = false := by
          simp only [timeAfter, decide_eq_false_iff_not, not_lt]
          exact le_of_lt hlt
        simp [checkExpired, Run.step, memEnv_now, hna]

/-- Concrete run for C2: a create with an expiry one hour ahead over a failing
cache, resolved from the store. -/
theorem create_then_resolve_witness :
    (GetOriginalURL (memEnv .failing) testConfig "AQEBAQ"
        (CreateShortURL (memEnv .failing) testConfig
          { URL := "https://example.com", ExpiresAt := some hour }
          (Run.start (emptyMem (fun k => counting (k + 1)) 0))).2).1
      = ("https://example.com", none) :=
  create_then_resolve .failing testConfig (emptyMem (fun k => counting (k + 1)) 0)
    { URL := "https://example.com", ExpiresAt := some hour }
    { ShortCode := "AQEBAQ", ShortURL := "http://localhost:8080/AQEBAQ",
      OriginalURL := "https://example.com", ExpiresAt := some hour }
    _ (Prod.ext (by decide) rfl) (by decide)

/-- Claim C3: over the in-memory store, whose lookup finds a row whenever a
row with that code was created before (expired or not), a sequence of
creations started from a store without duplicate codes yields pairwise
distinct codes, leaves the store without duplicate codes, and the codes of
the store afterwards are the earlier ones followed by the new ones. -/
theorem created_codes_distinct (mode : CacheMode) (cfg : AppConfig)
    (reqs : List CreateShortURLRequest) (m : Mem) (hinv : m.codes.Nodup) :
    (createMany (memEnv mode) cfg reqs (Run.start m)).1.Nodup ∧
      (createMany (memEnv mode) cfg reqs (Run.start m)).2.world.codes.Nodup ∧
      (createMany (memEnv mode) cfg reqs (Run.start m)).2.world.codes =
        m.codes ++ (createMany (memEnv mode) cfg reqs (Run.start m)).1 := by
  have h := createMany_codes mode cfg reqs (Run.start m)
  have hnd := h.2 hinv
  refine ⟨?_, hnd, h.1⟩
  rw [h.1] at hnd
  exact (List.nodup_append.1 hnd).2.1

/-- Concrete run for C3: three creations over an empty store. -/
theorem created_codes_distinct_witness :
    (emptyMem counting 0).codes.Nodup ∧
      (createMany (memEnv .faithful) testConfig
        [{ URL := "https://a.example" }, { URL := "https://b.example" },
         { URL := "https://c.example" }]
        (Run.start (emptyMem counting 0))).1 = ["AAAAAA", "AQEBAQ", "AgICAg"] ∧
      (createMany (memEnv .faithful) testConfig
        [{ URL := "https://a.example" }, { URL := "https://b.example" },
         { URL := "https://c.example" }]
        (Run.start (emptyMem counting 0))).1.Nodup :=
  ⟨by decide, by decide, (created_codes_distinct .faithful testConfig _ _ (by decide)).1⟩

/-- Claim C4: when the store answers every existence query with a row and
every read of the random source succeeds, `generateShortCode` issues exactly
five existence queries and fails with the exhausted-retries error, returning
no code; `CreateShortURL` returns that error wrapped, without a call of the
store's `Create` or of the cache's `Set`. -/
theorem exhausted_when_every_code_exists {σ : Type} (env : Env σ) (cfg : AppConfig)
    (req : CreateShortURLRequest) (w : σ)
    (hexists : ∀ code s, ∃ row, (env.findByCode code s).1 = .ok row)
    (hdraw : ∀ n s, ∃ bytes, (env.randRead n s).1 = .ok bytes) :
    (generateShortCode env cfg (Run.start w)).1 =
        ("", some (.errorf "failed to generate unique short code after 5 retries")) ∧
      (generateShortCode env cfg (Run.start w)).2.log.countP Call.isFind = 5 ∧
      (CreateShortURL env cfg req (Run.start w)).1 =
        (none, some (.wrap "failed to generate short code: "
          (.errorf "failed to generate unique short code after 5 retries"))) ∧
      ∀ c ∈ (CreateShortURL env cfg req (Run.start w)).2.log,
        c.isCreate = false ∧ c.isCacheSet = false := by
  have hg := generateLoop_exhausted env cfg hexists hdraw maxRetries (Run.start w)
  obtain ⟨l, hl, hall⟩ := generateLoop_log env cfg maxRetries (Run.start w)
  unfold CreateShortURL generateShortCode
  generalize generateLoop env cfg maxRetries (Run.start w) = g at hg hl
  obtain ⟨⟨code, err⟩, r1⟩ := g
  simp only [Prod.mk.injEq] at hg
  obtain ⟨⟨rfl, rfl⟩, hcount⟩ := hg
  refine ⟨rfl, by simpa [Run.start, maxRetries] using hcount, rfl, ?_⟩
  intro c hc
  simp only [Run.start, List.nil_append] at hl
  simp only at hc
  rw [hl] at hc
  rcases hall c hc with h | h <;> cases c <;> simp_all [Call.isRand, Call.isFind, Call.isCreate,
    Call.isCacheSet]

/-- Concrete run for C4: the stub store that finds a row for every code. -/
theorem exhausted_when_every_code_exists_witness :
    (generateShortCode stubEnv testConfig (Run.start ())).1 =
        ("", some (.errorf "failed to generate unique short code after 5 retries")) ∧
      (generateShortCode stubEnv testConfig (Run.start ())).2.log.countP Call.isFind = 5 ∧
      (CreateShortURL stubEnv testConfig { URL := "https://example.com" } (Run.start ())).1 =
        (none, some (.wrap "failed to generate short code: "
          (.errorf "failed to generate unique short code after 5 retries"))) ∧
      ∀ c ∈ (CreateShortURL stubEnv testConfig { URL := "https://example.com" }
          (Run.start ())).2.log, c.isCreate = false ∧ c.isCacheSet = false :=
  exhausted_when_every_code_exists stubEnv testConfig { URL := "https://example.com" } ()
    (fun _ _ => ⟨_, rfl⟩) (fun _ _ => ⟨_, rfl⟩)

/-- Claim C5, evaluated on the code: a request whose expiry lies one hour before
the clock reading is persisted and then written to the cache all the same,
with the lifetime of minus one hour. -/
theorem create_expired_writes_cache :
    (CreateShortURL (memEnv .faithful) testConfig
        { URL := "https://example.com", ExpiresAt := some 0 }
        (Run.start (emptyMem counting hour))).1
      = (some { ShortCode := "AAAAAA", ShortURL := "http://localhost:8080/AAAAAA",
                OriginalURL := "https://example.com", ExpiresAt := some 0 }, none) ∧
    (CreateShortURL (memEnv .faithful) testConfig
        { URL := "https://example.com", ExpiresAt := some 0 }
        (Run.start (emptyMem counting hour))).2.log
      = [.randRead 6, .findByCode "AAAAAA",
         .create { ShortCode := "AAAAAA", OriginalURL := "https://example.com",
                   ExpiresAt := some 0 },
         .now hour, .cacheSet "short_url:AAAAAA" "https://example.com" (-hour)] := by
  decide

/-- Claim C6, evaluated on the code: after a create whose expiry lies one hour
before the clock reading, the resolution over a cache that kept the entry
returns the target without an error; only when the cache does not answer
does the store path report the expiry. -/
theorem resolve_after_expired_create :
    (GetOriginalURL (memEnv .faithful) testConfig "AAAAAA"
        (CreateShortURL (memEnv .faithful) testConfig
          { URL := "https://example.com", ExpiresAt := some 0 }
          (Run.start (emptyMem counting hour))).2).1
      = ("https://example.com", none) ∧
    (GetOriginalURL (memEnv .failing) testConfig "AAAAAA"
        (CreateShortURL (memEnv .failing) testConfig
          { URL := "https://example.com", ExpiresAt := some 0 }
          (Run.start (emptyMem counting hour))).2).1
      = ("", some (.errorf "short URL has expired")) := by
  decide

/-- Claim C7: a successful `CreateShortURL` issues one cache write, as its
last call: `Set` of the key of the code to the request URL, with the lifetime
`Duration(CacheTTL) * Second` when the request has no expiry and the smaller
of that and `time.Until(expiresAt)` when it has one, the clock being read
right before the write. That lifetime is at most `time.Until(expiresAt)`,
hence at most `expiresAt - now` whenever that difference is a `Duration`; and
`Duration(CacheTTL) * Second` is `CacheTTL` seconds whenever that product is a
`Duration`. -/
theorem create_cache_lifetime {σ : Type} (env : Env σ) (cfg : AppConfig)
    (req : CreateShortURLRequest) (w : σ) (resp : CreateShortURLResponse) (r' : Run σ)
    (hcreate : CreateShortURL env cfg req (Run.start w) = ((some resp, none), r')) :
    (req.ExpiresAt = none →
        ∃ pre, r'.log = pre ++
            [.cacheSet (cacheKey resp.ShortCode) req.URL (cacheTTLDuration cfg)] ∧
          ∀ c ∈ pre, c.isCacheSet = false) ∧
      (∀ e, req.ExpiresAt = some e →
        ∃ pre t, r'.log = pre ++
            [.now t, .cacheSet (cacheKey resp.ShortCode) req.URL
              (min (cacheTTLDuration cfg) (timeSub e t))] ∧
          (∀ c ∈ pre, c.isCacheSet = false) ∧
          min (cacheTTLDuration cfg) (timeSub e t) ≤ timeSub e t ∧
          (minDuration ≤ e - t → min (cacheTTLDuration cfg) (timeSub e t) ≤ e - t)) ∧
      (minDuration ≤ cfg.CacheTTL * second → cfg.CacheTTL * second ≤ maxDuration →
        cacheTTLDuration cfg = cfg.CacheTTL * second) := by
  obtain ⟨pre, w2, hpre, hlog⟩ := create_ok_log env cfg req w resp r' hcreate
  refine ⟨fun he => ?_, fun e he => ?_, cacheTTLDuration_eq cfg⟩
  · rw [he] at hlog
    exact ⟨pre, by simpa using hlog, hpre⟩
  · rw [he] at hlog
    refine ⟨pre, (env.now w2).1, by simpa using hlog, hpre, min_le_right _ _, fun hlo => ?_⟩
    exact le_trans (min_le_right _ _) (timeSub_le _ _ hlo)

/-- Concrete run for C7: with `CacheTTL = 3600` and an expiry ten seconds
after the clock reading, the cache write carries a lifetime of ten seconds. -/
theorem create_cache_lifetime_witness :
    (CreateShortURL (memEnv .faithful) testConfig
        { URL := "https://example.com", ExpiresAt := some (10 * second) }
        (Run.start (emptyMem counting 0))).2.log.getLast?
      = some (.cacheSet "short_url:AAAAAA" "https://example.com" (10 * second)) ∧
    ∃ pre t, (CreateShortURL (memEnv .faithful) testConfig
        { URL := "https://example.com", ExpiresAt := some (10 * second) }
        (Run.start (emptyMem counting 0))).2.log = pre ++
          [.now t, .cacheSet "short_url:AAAAAA" "https://example.com"
            (min (cacheTTLDuration testConfig) (timeSub (10 * second) t))] ∧
        (∀ c ∈ pre, c.isCacheSet = false) ∧
        min (cacheTTLDuration testConfig) (timeSub (10 * second) t) ≤ timeSub (10 * second) t ∧
        (minDuration ≤ 10 * second - t →
          min (cacheTTLDuration testConfig) (timeSub (10 * second) t) ≤ 10 * second - t) :=
  ⟨by decide,
    (create_cache_lifetime (memEnv .faithful) testConfig
      { URL := "https://example.com", ExpiresAt := some (10 * second) }
      (emptyMem counting 0)
      { ShortCode := "AAAAAA", ShortURL := "http://localhost:8080/AAAAAA",
        OriginalURL := "https://example.com", ExpiresAt := some (10 * second) }
      _ (Prod.ext (by decide) rfl)).2.1 (10 * second) rfl⟩

/-- Claim C8: when the cache answers the key of the code with a value, the
resolution returns that value without an error, and the lookup of the cache
is the only call issued: no store query, no cache write. -/
theorem resolve_from_cache {σ : Type} (env : Env σ) (cfg : AppConfig) (code : String) (w : σ)
    (v : String) (hhit : (env.cacheGet (cacheKey code) w).1 = .ok v) :
    (GetOriginalURL env cfg code (Run.start w)).1 = (v, none) ∧
      (GetOriginalURL env cfg code (Run.start w)).2.log = [.cacheGet (cacheKey code)] := by
  unfold GetOriginalURL
  simp [Run.step, Run.start, hhit]

/-- Concrete run for C8: the cache holds the key of `abc123`. -/
theorem resolve_from_cache_witness :
    (GetOriginalURL (memEnv .faithful) testConfig "abc123"
        (Run.start (storedMem { ShortCode := "abc123", OriginalURL := "https://example.com" }
          [("short_url:abc123", "https://example.com", hour)] 0))).1
      = ("https://example.com", none) ∧
    (GetOriginalURL (memEnv .faithful) testConfig "abc123"
        (Run.start (storedMem { ShortCode := "abc123", OriginalURL := "https://example.com" }
          [("short_url:abc123", "https://example.com", hour)] 0))).2.log
      = [.cacheGet "short_url:abc123"] :=
  resolve_from_cache (memEnv .faithful) testConfig "abc123"
    (storedMem { ShortCode := "abc123", OriginalURL := "https://example.com" }
      [("short_url:abc123", "https://example.com", hour)] 0)
    "https://example.com" rfl

/-- Claim C9: when the cache does not answer, the store holds a row for the
code and the expiry of the row is absent or not before the clock reading, the
resolution returns the target of the row without an error; after the cache
lookup and the store query it only reads the clock and then writes the target
under the key of the code to the cache; and over a cache that answers a `Get`
after a `Set` of the same key with the value set, a read of that key after
the resolution gives the target. -/
theorem resolve_from_store {σ : Type} (env : Env σ) (cfg : AppConfig) (code : String) (w : σ)
    (err : Err) (row : ShortURL)
    (hmiss : (env.cacheGet (cacheKey code) w).1 = .error err)
    (hrow : (env.findByCode code (env.cacheGet (cacheKey code) w).2).1 = .ok row)
    (hlive : ∀ e, row.ExpiresAt = some e →
      (env.now (env.findByCode code (env.cacheGet (cacheKey code) w).2).2).1 ≤ e) :
    (GetOriginalURL env cfg code (Run.start w)).1 = (row.OriginalURL, none) ∧
      (∃ pre ttl, (GetOriginalURL env cfg code (Run.start w)).2.log =
          [.cacheGet (cacheKey code), .findByCode code] ++ pre ++
            [.cacheSet (cacheKey code) row.OriginalURL ttl] ∧
          ∀ c ∈ pre, c.isNow = true) ∧
      ((∀ k v t s, (env.cacheGet k (env.cacheSet k v t s).2).1 = .ok v) →
        (env.cacheGet (cacheKey code) (GetOriginalURL env cfg code (Run.start w)).2.world).1
          = .ok row.OriginalURL) := by
  unfold GetOriginalURL
  simp only [Run.step, Run.start, hmiss, hrow]
  cases hE : row.ExpiresAt with
  | none =>
    simp only [checkExpired, computeExpiration_log, computeExpiration_fst,
      computeExpiration_world]
    refine ⟨by simp, ⟨[], _, rfl, by simp⟩, fun hf => ?_⟩
    simp [hf]
  | some e =>
    have hna : timeAfter (env.now (env.findByCode code
        (env.cacheGet (cacheKey code) w).2).2).1 e = false := by
      simp only [timeAfter, decide_eq_false_iff_not, not_lt]
      exact hlive e hE
    simp only [checkExpired, Run.step, hna, computeExpiration_log, computeExpiration_fst,
      computeExpiration_world]
    refine ⟨by simp, ⟨[.now _, .now _], _, rfl, by simp [Call.isNow]⟩, fun hf => ?_⟩
    simp [hf]

/-- Concrete run for C9: the test `TestGetOriginalURL_FromDatabase` over the
in-memory store and an empty faithful cache. -/
theorem resolve_from_store_witness :
    (GetOriginalURL (memEnv .faithful) testConfig "abc123"
        (Run.start (storedMem { ShortCode := "abc123", OriginalURL := "https://example.com" }
          [] 0))).1
      = ("https://example.com", none) ∧
    (GetOriginalURL (memEnv .faithful) testConfig "abc123"
        (Run.start (storedMem { ShortCode := "abc123", OriginalURL := "https://example.com" }
          [] 0))).2.log
      = [.cacheGet "short_url:abc123", .findByCode "abc123",
         .cacheSet "short_url:abc123" "https://example.com" hour] ∧
    ((memEnv .faithful).cacheGet (cacheKey "abc123")
        (GetOriginalURL (memEnv .faithful) testConfig "abc123"
          (Run.start (storedMem { ShortCode := "abc123", OriginalURL := "https://example.com" }
            [] 0))).2.world).1
      = .ok "https://example.com" :=
  ⟨(resolve_from_store (memEnv .faithful) testConfig "abc123"
      (storedMem { ShortCode := "abc123", OriginalURL := "https://example.com" } [] 0)
      (.other "key does not exist")
      { ShortCode := "abc123", OriginalURL := "https://example.com" }
      rfl rfl (by simp)).1,
    by decide, rfl⟩

/-- Claim C10: when the cache does not answer and the row found has an expiry
strictly before the clock reading, the resolution returns the empty string
with the expired error, whose text ends in `expired`, and the calls issued are
the cache lookup, the store query and the clock reading: no cache write. -/
theorem resolve_expired {σ : Type} (env : Env σ) (cfg : AppConfig) (code : String) (w : σ)
    (err : Err) (row : ShortURL) (e : Int)
    (hmiss : (env.cacheGet (cacheKey code) w).1 = .error err)
    (hrow : (env.findByCode code (env.cacheGet (cacheKey code) w).2).1 = .ok row)
    (hexp : row.ExpiresAt = some e)
    (hpast : e < (env.now (env.findByCode code (env.cacheGet (cacheKey code) w).2).2).1) :
    (GetOriginalURL env cfg code (Run.start w)).1 = ("", some (.errorf "short URL has expired")) ∧
      (Err.errorf "short URL has expired").message = "short URL has " ++ "expired" ∧
      (GetOriginalURL env cfg code (Run.start w)).2.log =
        [.cacheGet (cacheKey code), .findByCode code,
         .now (env.now (env.findByCode code (env.cacheGet (cacheKey code) w).2).2).1] ∧
      ∀ c ∈ (GetOriginalURL env cfg code (Run.start w)).2.log, c.isCacheSet = false := by
  have hafter : timeAfter (env.now (env.findByCode code
      (env.cacheGet (cacheKey code) w).2).2).1 e = true := by
    simp [timeAfter, hpast]
  unfold GetOriginalURL
  simp [Run.step, Run.start, hmiss, hrow, hexp, checkExpired, hafter, Call.isCacheSet]
  decide

/-- Concrete run for C10: the test `TestGetOriginalURL_Expired` over the
in-memory store, the row having expired one hour before the clock reading. -/
theorem resolve_expired_witness :
    (GetOriginalURL (memEnv .failing) testConfig "abc123"
        (Run.start (storedMem
          { ShortCode := "abc123", OriginalURL := "https://example.com", ExpiresAt := some 0 }
          [] hour))).1
      = ("", some (.errorf "short URL has expired")) ∧
    (GetOriginalURL (memEnv .failing) testConfig "abc123"
        (Run.start (storedMem
          { ShortCode := "abc123", OriginalURL := "https://example.com", ExpiresAt := some 0 }
          [] hour))).2.log
      = [.cacheGet "short_url:abc123", .findByCode "abc123", .now hour] :=
  ⟨(resolve_expired (memEnv .failing) testConfig "abc123"
      (storedMem
        { ShortCode := "abc123", OriginalURL := "https://example.com", ExpiresAt := some 0 }
        [] hour)
      (.other "cache unavailable")
      { ShortCode := "abc123", OriginalURL := "https://example.com", ExpiresAt := some 0 }
      0 rfl rfl rfl (by decide)).1,
    by decide⟩

/-! ## Texts of the lookup errors -/

theorem wrap_find_message_ne (e : Err) :
    (Err.wrap "failed to find short URL: " e).message ≠ "short URL not found" ∧
      (Err.wrap "failed to find short URL: " e).message ≠ "short URL has expired" := by
  constructor <;>
  · intro h
    have h2 := congrArg String.data h
    simp [Err.message, String.data_append] at h2

theorem resolve_find_error {σ : Type} (env : Env σ) (cfg : AppConfig) (code : String) (w : σ)
    (cerr e : Err)
    (hmiss : (env.cacheGet (cacheKey code) w).1 = .error cerr)
    (hfind : (env.findByCode code (env.cacheGet (cacheKey code) w).2).1 = .error e) :
    (GetOriginalURL env cfg code (Run.start w)).1 =
      (if e = .recordNotFound then ("", some (.errorf "short URL not found"))
       else ("", some (.wrap "failed to find short URL: " e))) := by
  unfold GetOriginalURL
  simp only [Run.step, Run.start, hmiss, hfind]
  cases e <;> simp

theorem resolve_found_error {σ : Type} (env : Env σ) (cfg : AppConfig) (code : String) (w : σ)
    (cerr : Err) (row : ShortURL)
    (hmiss : (env.cacheGet (cacheKey code) w).1 = .error cerr)
    (hfind : (env.findByCode code (env.cacheGet (cacheKey code) w).2).1 = .ok row) :
    (GetOriginalURL env cfg code (Run.start w)).1.2 = none ∨
      (GetOriginalURL env cfg code (Run.start w)).1.2 = some (.errorf "short URL has expired") := by
  unfold GetOriginalURL
  simp only [Run.step, Run.start, hmiss, hfind]
  split
  · right; rfl
  · left; rfl

/-- Claim C11: when the cache does not answer, the resolution fails with the
text `short URL not found` exactly when the store's `FindByCode` reports
record-not-found (and then with that error and the empty string); any other
store error is returned wrapped, with a text that is neither the not-found
text nor the expired text, and the redirect handler answers it with 500. -/
theorem resolve_not_found_iff {σ : Type} (env : Env σ) (cfg : AppConfig) (code : String)
    (w : σ) (cerr : Err)
    (hmiss : (env.cacheGet (cacheKey code) w).1 = .error cerr) :
    ((∃ err, (GetOriginalURL env cfg code (Run.start w)).1.2 = some err ∧
          err.message = "short URL not found") ↔
        (env.findByCode code (env.cacheGet (cacheKey code) w).2).1 = .error .recordNotFound) ∧
      ((env.findByCode code (env.cacheGet (cacheKey code) w).2).1 = .error .recordNotFound →
        (GetOriginalURL env cfg code (Run.start w)).1 =
          ("", some (.errorf "short URL not found"))) ∧
      (∀ e, (env.findByCode code (env.cacheGet (cacheKey code) w).2).1 = .error e →
        e ≠ .recordNotFound →
        (GetOriginalURL env cfg code (Run.start w)).1 =
            ("", some (.wrap "failed to find short URL: " e)) ∧
          (Err.wrap "failed to find short URL: " e).message ≠ "short URL not found" ∧
          (Err.wrap "failed to find short URL: " e).message ≠ "short URL has expired" ∧
          (code ≠ "" → (RedirectToOriginalURL env cfg code (Run.start w)).1 = 500)) := by
  refine ⟨⟨?_, ?_⟩, ?_, ?_⟩
  · rintro ⟨err, herr, hmsg⟩
    cases hf : (env.findByCode code (env.cacheGet (cacheKey code) w).2).1 with
    | error e =>
      have h := resolve_find_error env cfg code w cerr e hmiss hf
      by_cases he : e = .recordNotFound
      · rw [he]
      · rw [if_neg he] at h
        rw [h] at herr
        simp only [Option.some.injEq] at herr
        subst herr
        exact absurd hmsg (wrap_find_message_ne e).1
    | ok row =>
      rcases resolve_found_error env cfg code w cerr row hmiss hf with h | h
      · rw [h] at herr; simp at herr
      · rw [h] at herr
        simp only [Option.some.injEq] at herr
        subst herr
        exact absurd hmsg (by decide)
  · intro hf
    have h := resolve_find_error env cfg code w cerr _ hmiss hf
    rw [if_pos rfl] at h
    exact ⟨.errorf "short URL not found", by rw [h], rfl⟩
  · intro hf
    have h := resolve_find_error env cfg code w cerr _ hmiss hf
    rw [if_pos rfl] at h
    exact h
  · intro e hf he
    have h := resolve_find_error env cfg code w cerr e hmiss hf
    rw [if_neg he] at h
    refine ⟨h, (wrap_find_message_ne e).1, (wrap_find_message_ne e).2, fun hc => ?_⟩
    unfold RedirectToOriginalURL
    rw [if_neg hc]
    generalize GetOriginalURL env cfg code (Run.start w) = out at h
    obtain ⟨res, r1⟩ := out
    simp only at h
    subst h
    simp only [if_neg (wrap_find_message_ne e).1, if_neg (wrap_find_message_ne e).2]

/-- Concrete run for C11: a store whose lookup fails with `connection refused`. -/
theorem resolve_not_found_iff_witness :
    (GetOriginalURL brokenStoreEnv testConfig "abc123" (Run.start ())).1 =
        ("", some (.wrap "failed to find short URL: " (.other "connection refused"))) ∧
      (RedirectToOriginalURL brokenStoreEnv testConfig "abc123" (Run.start ())).1 = 500 :=
  ⟨((resolve_not_found_iff brokenStoreEnv testConfig "abc123" ()
      (.other "key does not exist") rfl).2.2 (.other "connection refused") rfl (by decide)).1,
   ((resolve_not_found_iff brokenStoreEnv testConfig "abc123" ()
      (.other "key does not exist") rfl).2.2 (.other "connection refused") rfl (by decide)).2.2.2
      (by decide)⟩

/-! ## Independence of the cache's answers -/

theorem generateLoop_congr {σ : Type} (env env' : Env σ) (cfg : AppConfig)
    (hrand : env'.randRead = env.randRead) (hfind : env'.findByCode = env.findByCode)
    (fuel : Nat) (r : Run σ) :
    generateLoop env' cfg fuel r = generateLoop env cfg fuel r := by
  induction fuel generalizing r with
  | zero => rfl
  | succ k ih =>
    unfold generateLoop
    simp only [hrand, hfind, ih]

theorem computeExpiration_congr {σ : Type} (env env' : Env σ) (cfg : AppConfig)
    (hnow : env'.now = env.now) (expiresAt : Option Int) (r : Run σ) :
    computeExpiration env' cfg expiresAt r = computeExpiration env cfg expiresAt r := by
  unfold computeExpiration
  simp only [hnow]

theorem checkExpired_congr {σ : Type} (env env' : Env σ)
    (hnow : env'.now = env.now) (expiresAt : Option Int) (r : Run σ) :
    checkExpired env' expiresAt r = checkExpired env expiresAt r := by
  unfold checkExpired
  simp only [hnow]

/-- Claim C12: the results of `CreateShortURL` and `GetOriginalURL` do not
depend on the failures of the cache. Replacing the cache's `Set` by any other
one (succeeding or failing) leaves the response and error of `CreateShortURL`
unchanged; replacing in addition a failing `Get` by one that fails with
another error, with the same effect on the collaborators, leaves the value and
error of `GetOriginalURL` unchanged. -/
theorem cache_failures_absorbed {σ : Type} (env : Env σ) (cfg : AppConfig)
    (req : CreateShortURLRequest) (code : String) (w : σ)
    (set' : String → String → Int → σ → Option Err × σ)
    (get' : String → σ → Except Err String × σ) (e e' : Err)
    (hget : (env.cacheGet (cacheKey code) w).1 = .error e)
    (hget' : get' (cacheKey code) w = (.error e', (env.cacheGet (cacheKey code) w).2)) :
    (CreateShortURL { env with cacheSet := set' } cfg req (Run.start w)).1 =
        (CreateShortURL env cfg req (Run.start w)).1 ∧
      (GetOriginalURL { env with cacheGet := get', cacheSet := set' } cfg code (Run.start w)).1 =
        (GetOriginalURL env cfg code (Run.start w)).1 := by
  constructor
  · unfold CreateShortURL generateShortCode
    rw [generateLoop_congr env { env with cacheSet := set' } cfg rfl rfl]
    generalize generateLoop env cfg maxRetries (Run.start w) = g
    obtain ⟨⟨c, err⟩, r1⟩ := g
    cases err with
    | some e0 => rfl
    | none =>
      simp only [Run.step]
      split
      · rfl
      · rfl
  · unfold GetOriginalURL
    simp only [Run.step, Run.start, hget, hget']
    generalize (env.findByCode code (env.cacheGet (cacheKey code) w).2).1 = found
    cases found with
    | error e0 => cases e0 <;> rfl
    | ok row =>
      simp only []
      rw [checkExpired_congr env { env with cacheGet := get', cacheSet := set' } rfl]
      split <;> rfl

/-- Concrete run for C12: a cache that stores against a cache that fails every
call, over the same store. -/
theorem cache_failures_absorbed_witness :
    (CreateShortURL { memEnv .faithful with cacheSet := (memEnv .failing).cacheSet } testConfig
          { URL := "https://example.com" } (Run.start (emptyMem counting 0))).1 =
        (CreateShortURL (memEnv .faithful) testConfig
          { URL := "https://example.com" } (Run.start (emptyMem counting 0))).1 ∧
      (GetOriginalURL { memEnv .faithful with cacheGet := (memEnv .failing).cacheGet,
                                              cacheSet := (memEnv .failing).cacheSet }
          testConfig "abc123" (Run.start (emptyMem counting 0))).1 =
        (GetOriginalURL (memEnv .faithful) testConfig "abc123"
          (Run.start (emptyMem counting 0))).1 :=
  cache_failures_absorbed (memEnv .faithful) testConfig { URL := "https://example.com" }
    "abc123" (emptyMem counting 0) (memEnv .failing).cacheSet (memEnv .failing).cacheGet
    (.other "key does not exist") (.other "cache unavailable") rfl rfl

/-! ## Cache writes follow the store -/

theorem backs_mono (m m' : Mem) (k v : String) (hrows : ∀ row ∈ m.rows, row ∈ m'.rows)
    (h : m.backs k v) : m'.backs k v := by
  obtain ⟨row, hrow, hk, hv⟩ := h
  exact ⟨row, hrows row hrow, hk, hv⟩

theorem sound_of_grows (r out : Run Mem) (hs : sound r) (he : grows r out) : sound out := by
  obtain ⟨hrows, hlog, hent⟩ := he
  refine ⟨fun k v t h => ?_, fun en h => ?_⟩
  · rcases hlog k v t h with h1 | h1
    · exact backs_mono _ _ _ _ hrows (hs.1 k v t h1)
    · exact h1
  · rcases hent en h with h1 | h1
    · exact backs_mono _ _ _ _ hrows (hs.2 en h1)
    · exact h1

theorem cacheSet_not_generated (l : List Call)
    (hall : ∀ c ∈ l, c.isRand = true ∨ c.isFind = true) (k v : String) (t : Int) :
    Call.cacheSet k v t ∉ l := by
  intro h
  rcases hall _ h with h1 | h1 <;> simp [Call.isRand, Call.isFind] at h1

theorem generated_not_cacheSet (l : List Call)
    (hall : ∀ c ∈ l, c.isRand = true ∨ c.isFind = true) :
    ∀ c ∈ l, c.isCacheSet = false := by
  intro c hc
  rcases hall c hc with h | h <;> cases c <;> simp_all [Call.isRand, Call.isFind,
    Call.isCacheSet]

theorem grows_of_quiet (r out : Run Mem) (l : List Call)
    (hrows : out.world.rows = r.world.rows) (hent : out.world.entries = r.world.entries)
    (hlog : out.log = r.log ++ l) (hl : ∀ c ∈ l, c.isCacheSet = false) : grows r out := by
  refine ⟨fun row h => by rw [hrows]; exact h, fun k v t h => ?_, fun en h => ?_⟩
  · rw [hlog, List.mem_append] at h
    rcases h with h | h
    · exact Or.inl h
    · have := hl _ h
      simp [Call.isCacheSet] at this
  · rw [hent] at h
    exact Or.inl h

theorem grows_of_write (r out : Run Mem) (l : List Call) (key value : String) (ttl : Int)
    (hrows : ∀ row ∈ r.world.rows, row ∈ out.world.rows)
    (hent : out.world.entries = r.world.entries ∨
      out.world.entries = (key, value, ttl) :: r.world.entries)
    (hlog : out.log = r.log ++ l ++ [.cacheSet key value ttl])
    (hl : ∀ c ∈ l, c.isCacheSet = false) (hback : out.world.backs key value) :
    grows r out := by
  refine ⟨hrows, fun k v t h => ?_, fun en h => ?_⟩
  · rw [hlog] at h
    simp only [List.mem_append, List.mem_singleton] at h
    rcases h with (h | h) | h
    · exact Or.inl h
    · have := hl _ h
      simp [Call.isCacheSet] at this
    · simp only [Call.cacheSet.injEq] at h
      obtain ⟨rfl, rfl, -⟩ := h
      exact Or.inr hback
  · rcases hent with hent | hent
    · rw [hent] at h
      exact Or.inl h
    · rw [hent, List.mem_cons] at h
      rcases h with rfl | h
      · exact Or.inr hback
      · exact Or.inl h

theorem grows_create (mode : CacheMode) (cfg : AppConfig) (req : CreateShortURLRequest)
    (r : Run Mem) : grows r (CreateShortURL (memEnv mode) cfg req r).2 := by
  unfold CreateShortURL generateShortCode
  obtain ⟨⟨k, hk⟩, -⟩ := mem_generateLoop mode cfg maxRetries r
  obtain ⟨l, hl, hall⟩ := generateLoop_log (memEnv mode) cfg maxRetries r
  have hno := generated_not_cacheSet l hall
  generalize generateLoop (memEnv mode) cfg maxRetries r = g at hk hl
  obtain ⟨⟨code, err⟩, r1⟩ := g
  simp only at hk hl
  cases err with
  | some e => exact grows_of_quiet _ _ l (by simp [hk]) (by simp [hk]) hl hno
  | none =>
    simp only [Run.step, memEnv_create]
    cases hr : r1.world.refuses r1.world.creates with
    | some e =>
      refine grows_of_quiet _ _ (l ++ [.create ⟨0, code, req.URL, 0, 0, none, req.ExpiresAt⟩])
        (by simp [hk]) (by simp [hk]) (by simp [hl]) ?_
      intro c hc
      simp only [List.mem_append, List.mem_singleton] at hc
      rcases hc with hc | rfl
      · exact hno c hc
      · rfl
    | none =>
      simp only [computeExpiration_world, computeExpiration_log, computeExpiration_fst]
      cases hE : req.ExpiresAt with
      | none =>
        refine grows_of_write _ _ (l ++ [.create ⟨0, code, req.URL, 0, 0, none, none⟩])
          (cacheKey code) req.URL (cacheTTLDuration cfg) ?_ ?_ (by simp [hl]) ?_ ?_
        · intro row h; cases mode <;> simp [memEnv_cacheSet, hk, h]
        · cases mode <;> simp [memEnv_cacheSet, hk]
        · intro c hc
          simp only [List.mem_append, List.mem_singleton] at hc
          rcases hc with hc | rfl
          · exact hno c hc
          · rfl
        · exact ⟨⟨0, code, req.URL, 0, 0, none, none⟩,
            by cases mode <;> simp [memEnv_cacheSet, hk], rfl, rfl⟩
      | some e =>
        refine grows_of_write _ _ (l ++ [.create ⟨0, code, req.URL, 0, 0, none, some e⟩,
            .now (r1.world.clock r1.world.ticks)])
          (cacheKey code) req.URL
          (min (cacheTTLDuration cfg) (timeSub e (r1.world.clock r1.world.ticks)))
          ?_ ?_ (by simp [hl, memEnv_now]) ?_ ?_
        · intro row h; cases mode <;> simp [memEnv_cacheSet, memEnv_now, hk, h]
        · cases mode <;> simp [memEnv_cacheSet, memEnv_now, hk]
        · intro c hc
          simp only [List.mem_append, List.mem_cons, List.mem_singleton, List.not_mem_nil,
            or_false] at hc
          rcases hc with hc | rfl | rfl
          · exact hno c hc
          · rfl
          · rfl
        · exact ⟨⟨0, code, req.URL, 0, 0, none, some e⟩,
            by cases mode <;> simp [memEnv_cacheSet, memEnv_now, hk], rfl, rfl⟩

theorem grows_resolve (mode : CacheMode) (cfg : AppConfig) (code : String) (r : Run Mem) :
    grows r (GetOriginalURL (memEnv mode) cfg code r).2 := by
  unfold GetOriginalURL
  simp only [Run.step]
  cases hget : ((memEnv mode).cacheGet (cacheKey code) r.world).1 with
  | ok v =>
    refine grows_of_quiet _ _ [.cacheGet (cacheKey code)] ?_ ?_ rfl (by simp [Call.isCacheSet])
    · cases mode <;> (simp only [memEnv_cacheGet]; try (split <;> rfl))
    · cases mode <;> (simp only [memEnv_cacheGet]; try (split <;> rfl))
  | error ce =>
    have hw : ((memEnv mode).cacheGet (cacheKey code) r.world).2 = r.world := by
      cases mode <;> (simp only [memEnv_cacheGet]; try (split <;> rfl))
    simp only [hw, memEnv_findByCode]
    cases hf : r.world.find code with
    | none =>
      exact grows_of_quiet _ _ [.cacheGet (cacheKey code), .findByCode code] rfl rfl
        (by simp) (by simp [Call.isCacheSet])
    | some row =>
      have hmem : row ∈ r.world.rows := List.mem_of_find?_eq_some hf
      have hcode : row.ShortCode = code := by
        have := List.find?_some hf
        simpa using this
      simp only []
      cases hE : row.ExpiresAt with
      | none =>
        simp only [checkExpired, computeExpiration_world, computeExpiration_log,
          computeExpiration_fst, Bool.false_eq_true, if_false]
        refine grows_of_write _ _ [.cacheGet (cacheKey code), .findByCode code]
          (cacheKey code) row.OriginalURL (cacheTTLDuration cfg) ?_ ?_ (by simp) 
          (by simp [Call.isCacheSet]) ?_
        · intro x h; cases mode <;> simp [memEnv_cacheSet, h]
        · cases mode <;> simp [memEnv_cacheSet]
        · exact ⟨row, by cases mode <;> simp [memEnv_cacheSet, hmem], by rw [hcode], rfl⟩
      | some e =>
        simp only [checkExpired, Run.step, memEnv_now]
        split
        · exact grows_of_quiet _ _ [.cacheGet (cacheKey code), .findByCode code,
            .now (r.world.clock r.world.ticks)] rfl rfl (by simp) (by simp [Call.isCacheSet])
        · simp only [computeExpiration_world, computeExpiration_log, computeExpiration_fst,
            memEnv_now]
          refine grows_of_write _ _ [.cacheGet (cacheKey code), .findByCode code,
              .now (r.world.clock r.world.ticks), .now (r.world.clock (r.world.ticks + 1))]
            (cacheKey code) row.OriginalURL
            (min (cacheTTLDuration cfg) (timeSub e (r.world.clock (r.world.ticks + 1))))
            ?_ ?_ (by simp) (by simp [Call.isCacheSet]) ?_
          · intro x h; cases mode <;> simp [memEnv_cacheSet, h]
          · cases mode <;> simp [memEnv_cacheSet]
          · exact ⟨row, by cases mode <;> simp [memEnv_cacheSet, hmem], by rw [hcode], rfl⟩

theorem sound_runOps (mode : CacheMode) (cfg : AppConfig) (ops : List Op) (r : Run Mem)
    (hs : sound r) : sound (runOps (memEnv mode) cfg ops r) := by
  induction ops generalizing r with
  | nil => exact hs
  | cons op rest ih =>
    cases op with
    | create req =>
      exact ih _ (sound_of_grows _ _ hs (grows_create mode cfg req r))
    | resolve code =>
      exact ih _ (sound_of_grows _ _ hs (grows_resolve mode cfg code r))

/-- Claim C13: over the in-memory store, whose `Create` may be refused, and
starting from an empty cache, after any sequence of `CreateShortURL` and
`GetOriginalURL` calls every cache write the service issued and every entry
the cache holds is `short_url:` + c with value u for a store row with code c
and target u. When the store refuses the `Create` of a generated code,
`CreateShortURL` returns the wrapped error and no response, has called
`Create` once, and has written nothing to the cache. -/
theorem cache_follows_store (mode : CacheMode) (cfg : AppConfig) (ops : List Op) (m : Mem)
    (hempty : m.entries = []) :
    (∀ k v t, Call.cacheSet k v t ∈ (runOps (memEnv mode) cfg ops (Run.start m)).log →
        (runOps (memEnv mode) cfg ops (Run.start m)).world.backs k v) ∧
      (∀ en ∈ (runOps (memEnv mode) cfg ops (Run.start m)).world.entries,
        (runOps (memEnv mode) cfg ops (Run.start m)).world.backs en.1 en.2.1) ∧
      (∀ req e, m.refuses m.creates = some e →
        (generateShortCode (memEnv mode) cfg (Run.start m)).1.2 = none →
        (CreateShortURL (memEnv mode) cfg req (Run.start m)).1 =
            (none, some (.wrap "failed to create short URL: " e)) ∧
          (CreateShortURL (memEnv mode) cfg req (Run.start m)).2.log.countP Call.isCreate = 1 ∧
          (∀ c ∈ (CreateShortURL (memEnv mode) cfg req (Run.start m)).2.log,
            c.isCacheSet = false) ∧
          (CreateShortURL (memEnv mode) cfg req (Run.start m)).2.world.entries = m.entries) := by
  have hs : sound (Run.start m) := by
    refine ⟨fun k v t h => ?_, fun en h => ?_⟩
    · simp [Run.start] at h
    · simp [Run.start, hempty] at h
  have hfin := sound_runOps mode cfg ops (Run.start m) hs
  refine ⟨hfin.1, hfin.2, ?_⟩
  intro req e href hgen
  obtain ⟨⟨k, hk⟩, -⟩ := mem_generateLoop mode cfg maxRetries (Run.start m)
  obtain ⟨l, hl, hall⟩ := generateLoop_log (memEnv mode) cfg maxRetries (Run.start m)
  have hno := generated_not_cacheSet l hall
  have hnc : l.countP Call.isCreate = 0 := by
    rw [List.countP_eq_zero]
    intro c hc
    rcases hall c hc with h | h <;> cases c <;> simp_all [Call.isRand, Call.isFind,
      Call.isCreate]
  unfold CreateShortURL
  unfold generateShortCode at hgen ⊢
  generalize generateLoop (memEnv mode) cfg maxRetries (Run.start m) = g at hk hl hgen
  obtain ⟨⟨code, err⟩, r1⟩ := g
  simp only at hk hl hgen
  subst hgen
  have href1 : r1.world.refuses r1.world.creates = some e := by rw [hk]; exact href
  simp only [Run.step, memEnv_create, href1, Run.start, List.nil_append] at hl ⊢
  refine ⟨trivial, ?_, ?_, by rw [hk]; rfl⟩
  · rw [hl, List.countP_append, hnc]
    rfl
  · intro c hc
    rw [hl] at hc
    simp only [List.mem_append, List.mem_singleton] at hc
    rcases hc with hc | rfl
    · exact hno c hc
    · rfl

/-- Concrete run for C13: a refused create, an accepted create and a resolve
of the accepted code over a failing cache. -/
theorem cache_follows_store_witness :
    (∀ k v t, Call.cacheSet k v t ∈
        (runOps (memEnv .failing) testConfig
          [.create { URL := "https://a.example" }, .create { URL := "https://b.example" },
           .resolve "AQEBAQ"] (Run.start refusingMem)).log →
        (runOps (memEnv .failing) testConfig
          [.create { URL := "https://a.example" }, .create { URL := "https://b.example" },
           .resolve "AQEBAQ"] (Run.start refusingMem)).world.backs k v) ∧
      (CreateShortURL (memEnv .failing) testConfig { URL := "https://a.example" }
          (Run.start refusingMem)).1 =
        (none, some (.wrap "failed to create short URL: " (.other "duplicate key value"))) :=
  ⟨(cache_follows_store .failing testConfig
      [.create { URL := "https://a.example" }, .create { URL := "https://b.example" },
       .resolve "AQEBAQ"] refusingMem rfl).1,
   ((cache_follows_store .failing testConfig [] refusingMem rfl).2.2
      { URL := "https://a.example" } (.other "duplicate key value") rfl (by decide)).1⟩

/-- Claim C14: `GetURLStats` issues one call, the store lookup, so that it
neither reads nor writes the cache nor reads the clock; a row found is
reported with its code, target, creation time and expiry, whatever the expiry;
record-not-found gives the not-found error, any other store error is returned
wrapped, with a text that is not the not-found text. -/
theorem stats_from_store {σ : Type} (env : Env σ) (code : String) (w : σ) :
    (GetURLStats env code (Run.start w)).2.log = [.findByCode code] ∧
      (∀ row, (env.findByCode code w).1 = .ok row →
        (GetURLStats env code (Run.start w)).1 =
          (some { ShortCode := row.ShortCode, OriginalURL := row.OriginalURL,
                  CreatedAt := row.CreatedAt, ExpiresAt := row.ExpiresAt }, none)) ∧
      ((env.findByCode code w).1 = .error .recordNotFound →
        (GetURLStats env code (Run.start w)).1 = (none, some (.errorf "short URL not found"))) ∧
      (∀ e, (env.findByCode code w).1 = .error e → e ≠ .recordNotFound →
        (GetURLStats env code (Run.start w)).1 =
            (none, some (.wrap "failed to find short URL: " e)) ∧
          (Err.wrap "failed to find short URL: " e).message ≠ "short URL not found") := by
  unfold GetURLStats
  simp only [Run.step, Run.start, List.nil_append]
  refine ⟨?_, ?_, ?_, ?_⟩
  · cases (env.findByCode code w).1 with
    | error e => cases e <;> rfl
    | ok row => rfl
  · intro row h; rw [h]
  · intro h; rw [h]
  · intro e h he
    rw [h]
    refine ⟨?_, (wrap_find_message_ne e).1⟩
    cases e <;> first | rfl | exact absurd rfl he

/-- Concrete run for C14: a row that expired one hour before the clock
reading is still reported. -/
theorem stats_from_store_witness :
    (GetURLStats (memEnv .faithful) "abc123"
        (Run.start (storedMem
          { ShortCode := "abc123", OriginalURL := "https://example.com", CreatedAt := 5,
            ExpiresAt := some 0 } [] hour))).1 =
      (some { ShortCode := "abc123", OriginalURL := "https://example.com", CreatedAt := 5,
              ExpiresAt := some 0 }, none) :=
  (stats_from_store (memEnv .faithful) "abc123"
    (storedMem { ShortCode := "abc123", OriginalURL := "https://example.com", CreatedAt := 5,
                 ExpiresAt := some 0 } [] hour)).2.1
    { ShortCode := "abc123", OriginalURL := "https://example.com", CreatedAt := 5,
      ExpiresAt := some 0 } rfl

/-- Claim C15: the response of a successful `CreateShortURL` has the URL and
the expiry of the request, its code is the one `generateShortCode` returned,
its short URL is the base URL, `/` and the code, and the store's `Create` was
called once, with a row of that code, URL and expiry. -/
theorem create_echoes_request {σ : Type} (env : Env σ) (cfg : AppConfig)
    (req : CreateShortURLRequest) (w : σ) (resp : CreateShortURLResponse) (r' : Run σ)
    (hcreate : CreateShortURL env cfg req (Run.start w) = ((some resp, none), r')) :
    resp.OriginalURL = req.URL ∧ resp.ExpiresAt = req.ExpiresAt ∧
      resp.ShortURL = cfg.BaseURL ++ "/" ++ resp.ShortCode ∧
      (generateShortCode env cfg (Run.start w)).1 = (resp.ShortCode, none) ∧
      Call.create { ShortCode := resp.ShortCode, OriginalURL := req.URL,
                    ExpiresAt := req.ExpiresAt } ∈ r'.log ∧
      r'.log.countP Call.isCreate = 1 := by
  obtain ⟨l, hl, hall⟩ := generateLoop_log env cfg maxRetries (Run.start w)
  have hnc : l.countP Call.isCreate = 0 := by
    rw [List.countP_eq_zero]
    intro c hc
    rcases hall c hc with h | h <;> cases c <;> simp_all [Call.isRand, Call.isFind,
      Call.isCreate]
  unfold CreateShortURL at hcreate
  unfold generateShortCode at hcreate ⊢
  generalize generateLoop env cfg maxRetries (Run.start w) = g at hcreate hl
  obtain ⟨⟨code, err⟩, r1⟩ := g
  simp only [Run.start, List.nil_append] at hl
  cases err with
  | some e0 => simp at hcreate
  | none =>
    simp only [Run.step] at hcreate
    split at hcreate
    · simp at hcreate
    · simp only [Prod.mk.injEq, Option.some.injEq, and_true] at hcreate
      obtain ⟨rfl, rfl⟩ := hcreate
      simp only [computeExpiration_log]
      refine ⟨trivial, trivial, trivial, trivial, ?_, ?_⟩
      · cases req.ExpiresAt <;> simp
      · cases req.ExpiresAt <;>
          simp [hl, List.countP_append, hnc, Call.isCreate, List.countP_cons]

/-- Concrete run for C15: the test `TestCreateShortURLWithoutExpiry` over the
in-memory store. -/
theorem create_echoes_request_witness :
    (generateShortCode (memEnv .faithful) testConfig (Run.start (emptyMem counting 0))).1 =
        ("AAAAAA", none) ∧
      Call.create { ShortCode := "AAAAAA", OriginalURL := "https://example.com/without-expiry" } ∈
        (CreateShortURL (memEnv .faithful) testConfig
          { URL := "https://example.com/without-expiry" }
          (Run.start (emptyMem counting 0))).2.log :=
  ⟨(create_echoes_request (memEnv .faithful) testConfig
      { URL := "https://example.com/without-expiry" } (emptyMem counting 0)
      { ShortCode := "AAAAAA", ShortURL := "http://localhost:8080/AAAAAA",
        OriginalURL := "https://example.com/without-expiry", ExpiresAt := none }
      _ (Prod.ext (by decide) rfl)).2.2.2.1,
   (create_echoes_request (memEnv .faithful) testConfig
      { URL := "https://example.com/without-expiry" } (emptyMem counting 0)
      { ShortCode := "AAAAAA", ShortURL := "http://localhost:8080/AAAAAA",
        OriginalURL := "https://example.com/without-expiry", ExpiresAt := none }
      _ (Prod.ext (by decide) rfl)).2.2.2.2.1⟩

theorem codeOfBytes_stripped (len : Nat) (randomBytes : List Nat) :
    ∀ c ∈ (codeOfBytes len randomBytes).data, c ≠ '-' ∧ c ≠ '_' := by
  intro c hc
  have hfil : ∀ x ∈ removeAll '_' (removeAll '-' (encodeToString randomBytes)),
      x ≠ '-' ∧ x ≠ '_' := by
    intro x hx
    simp only [removeAll, List.mem_filter, bne_iff_ne, ne_eq] at hx
    exact ⟨hx.1.2, hx.2⟩
  unfold codeOfBytes at hc
  simp only at hc
  split at hc
  · exact hfil c (List.mem_of_mem_take hc)
  · exact hfil c hc

/-- Claim C16, evaluated on the code: with the configured length 4 and the draw
`0xFB 0xEF 0xBE 0x00` the encoding is `----AA==`; stripping leaves `AA==`,
which is not longer than 4, so `generateShortCode` returns a code with two
padding characters `=`. -/
theorem generateShortCode_keeps_padding :
    codeOfBytes 4 [251, 239, 190, 0] = "AA==" ∧
      (generateShortCode (memEnv .faithful) lengthFourConfig (Run.start (emptyMem dashes 0))).1
        = ("AA==", none) ∧
      (CreateShortURL (memEnv .faithful) lengthFourConfig { URL := "https://example.com" }
          (Run.start (emptyMem dashes 0))).1
        = (some { ShortCode := "AA==", ShortURL := "http://localhost:8080/AA==",
                  OriginalURL := "https://example.com", ExpiresAt := none }, none) := by
  decide

/-- Claim C17, evaluated on the code: with `CacheTTL = 3600`, a row whose expiry
equals the clock reading passes the expiry test and is written to the cache
with the lifetime 0; when the clock moves on by a nanosecond between the
expiry test and the lifetime computation the lifetime written is -1. -/
theorem resolve_writes_nonpositive_lifetime :
    (GetOriginalURL (memEnv .faithful) testConfig "abc123"
        (Run.start (storedMem
          { ShortCode := "abc123", OriginalURL := "https://example.com", ExpiresAt := some hour }
          [] hour))).2.log
      = [.cacheGet "short_url:abc123", .findByCode "abc123", .now hour, .now hour,
         .cacheSet "short_url:abc123" "https://example.com" 0] ∧
    (GetOriginalURL (memEnv .faithful) testConfig "abc123"
        (Run.start (tickingMem
          { ShortCode := "abc123", OriginalURL := "https://example.com", ExpiresAt := some hour }
          hour))).2.log
      = [.cacheGet "short_url:abc123", .findByCode "abc123", .now hour, .now (hour + 1),
         .cacheSet "short_url:abc123" "https://example.com" (-1)] := by
  decide

end UrlShortener
